import Mathlib

/- Verification of the gipsy-office stock and sale core.
   Python dictionaries holding ingredient quantities are embedded as
   association lists of (id, rational quantity); Python floats are
   embedded as rationals.  All definitions are translated from the
   repository sources (app/logic/calc.py, app/services/sales.py,
   streamlit_app.py) except where a doc comment says otherwise. -/

/-- Association-list embedding of a Python dict mapping ids to float quantities. -/
abbrev QMap := List (String × ℚ)

/-- Python d.get(k, 0): value at the first matching key, 0 when absent. -/
def mget : QMap → String → ℚ
  | [], _ => 0
  | p :: rest, k => if p.1 = k then p.2 else mget rest k

/-- Python k in d: key membership. -/
def mmem : QMap → String → Bool
  | [], _ => false
  | p :: rest, k => if p.1 = k then true else mmem rest k

/-- Python d[k] = v: update the existing binding, or append a new one. -/
def mset : QMap → String → ℚ → QMap
  | [], k, v => [(k, v)]
  | p :: rest, k, v => if p.1 = k then (k, v) :: rest else p :: mset rest k v

/-- Keys of the map, in order. -/
def keys (m : QMap) : List String := m.map Prod.fst

/-- All stored quantities are nonnegative. -/
def StockNonneg (m : QMap) : Prop := ∀ p ∈ m, 0 ≤ p.2

theorem mget_mset (m : QMap) (k i : String) (v : ℚ) :
    mget (mset m k v) i = if k = i then v else mget m i := by
  induction m with
  | nil => by_cases h : k = i <;> simp [mset, mget, h]
  | cons p rest ih =>
    obtain ⟨a, b⟩ := p
    by_cases h : a = k
    · subst h
      by_cases h2 : a = i <;> simp [mset, mget, h2]
    · by_cases h2 : a = i
      · have hki : ¬ k = i := fun hk => h (h2.trans hk.symm)
        have hik : ¬ i = k := fun hh => hki hh.symm
        simp [mset, mget, h, h2, hki, hik]
      · simp [mset, mget, h, h2, ih]

theorem mmem_mset (m : QMap) (k i : String) (v : ℚ) :
    mmem (mset m k v) i = (if k = i then true else mmem m i) := by
  induction m with
  | nil => by_cases h : k = i <;> simp [mset, mmem, h]
  | cons p rest ih =>
    obtain ⟨a, b⟩ := p
    by_cases h : a = k
    · subst h
      by_cases h2 : a = i <;> simp [mset, mmem, h2]
    · by_cases h2 : a = i
      · have hki : ¬ k = i := fun hk => h (h2.trans hk.symm)
        have hik : ¬ i = k := fun hh => hki hh.symm
        simp [mset, mmem, h, h2, hki, hik]
      · simp [mset, mmem, h, h2, ih]

theorem mget_eq_zero_of_not_mmem (m : QMap) (k : String) (h : mmem m k = false) :
    mget m k = 0 := by
  induction m with
  | nil => rfl
  | cons p rest ih =>
    by_cases h2 : p.1 = k
    · simp [mmem, h2] at h
    · simp [mmem, h2] at h
      simp [mget, h2, ih h]

theorem mem_of_mmem (m : QMap) (k : String) (h : mmem m k = true) :
    (k, mget m k) ∈ m := by
  induction m with
  | nil => simp [mmem] at h
  | cons p rest ih =>
    obtain ⟨a, b⟩ := p
    by_cases h2 : a = k
    · subst h2
      simp [mget]
    · simp only [mmem, if_neg h2] at h
      simp only [mget, if_neg h2]
      exact List.mem_cons_of_mem _ (ih h)

theorem mset_nonneg (m : QMap) (k : String) (v : ℚ) (hm : StockNonneg m) (hv : 0 ≤ v) :
    StockNonneg (mset m k v) := by
  induction m with
  | nil =>
    intro p hp
    simp [mset] at hp
    simp [hp, hv]
  | cons q rest ih =>
    intro p hp
    obtain ⟨a, b⟩ := q
    by_cases h2 : a = k
    · simp only [mset, if_pos h2] at hp
      rcases List.mem_cons.mp hp with hp | hp
      · simp [hp, hv]
      · exact hm p (List.mem_cons_of_mem _ hp)
    · simp only [mset, if_neg h2] at hp
      rcases List.mem_cons.mp hp with hp | hp
      · exact hp ▸ hm (a, b) (List.mem_cons_self _ _)
      · exact ih (fun r hr => hm r (List.mem_cons_of_mem _ hr)) p hp

theorem mget_nonneg (m : QMap) (k : String) (hm : StockNonneg m) : 0 ≤ mget m k := by
  induction m with
  | nil => simp [mget]
  | cons p rest ih =>
    by_cases h2 : p.1 = k
    · simpa [mget, h2] using hm p (List.mem_cons_self _ _)
    · simp only [mget, if_neg h2]
      exact ih (fun r hr => hm r (List.mem_cons_of_mem _ hr))

/-- Sum of the weights of the elements of l whose key equals i. -/
def keyedSum {α : Type} (key : α → String) (w : α → ℚ) (l : List α) (i : String) : ℚ :=
  (l.map (fun x => if key x = i then w x else 0)).sum

theorem keyedSum_nil {α : Type} (key : α → String) (w : α → ℚ) (i : String) :
    keyedSum key w [] i = 0 := rfl

theorem keyedSum_cons {α : Type} (key : α → String) (w : α → ℚ) (x : α) (l : List α)
    (i : String) :
    keyedSum key w (x :: l) i = (if key x = i then w x else 0) + keyedSum key w l i := by
  simp [keyedSum]

theorem keyedSum_eq_zero {α : Type} (key : α → String) (w : α → ℚ) (l : List α) (i : String)
    (h : ∀ x ∈ l, ¬ key x = i) : keyedSum key w l i = 0 := by
  induction l with
  | nil => rfl
  | cons x rest ih =>
    rw [keyedSum_cons, if_neg (h x (List.mem_cons_self _ _)),
      ih (fun y hy => h y (List.mem_cons_of_mem _ hy))]
    simp

theorem keyedSum_mul {α : Type} (key : α → String) (w : α → ℚ) (c : ℚ) (l : List α)
    (i : String) :
    keyedSum key (fun x => w x * c) l i = keyedSum key w l i * c := by
  induction l with
  | nil => simp [keyedSum]
  | cons x rest ih =>
    rw [keyedSum_cons, keyedSum_cons, ih, add_mul]
    by_cases h : key x = i <;> simp [h]

/-- The accumulate-into-a-dict fold shared by the calc.py helpers: reading the
current value, adding a weight and storing it back sums the weights per key. -/
theorem mget_foldl_add {α : Type} (key : α → String) (w : α → ℚ) :
    ∀ (l : List α) (acc : QMap) (i : String),
      mget (l.foldl (fun m x => mset m (key x) (mget m (key x) + w x)) acc) i
        = mget acc i + keyedSum key w l i
  | [], acc, i => by simp [keyedSum]
  | x :: rest, acc, i => by
    rw [List.foldl_cons, mget_foldl_add key w rest _ i, keyedSum_cons, mget_mset]
    by_cases h : key x = i
    · simp only [if_pos h]
      rw [h]
      ring
    · simp only [if_neg h]
      ring


/-- Sum of the values bound to key i among the entries of m (duplicates counted). -/
def entrySum (m : QMap) (i : String) : ℚ := keyedSum Prod.fst Prod.snd m i

/-- The keys of the map are pairwise distinct. -/
def keysNodup : QMap → Prop
  | [] => True
  | p :: rest => mmem rest p.1 = false ∧ keysNodup rest

theorem mmem_of_mem (m : QMap) (x : String × ℚ) (h : x ∈ m) : mmem m x.1 = true := by
  induction m with
  | nil => simp at h
  | cons p rest ih =>
    rcases List.mem_cons.mp h with h | h
    · simp [mmem, h]
    · by_cases h2 : p.1 = x.1 <;> simp [mmem, h2, ih h]

theorem keysNodup_mset (m : QMap) (k : String) (v : ℚ) (h : keysNodup m) :
    keysNodup (mset m k v) := by
  induction m with
  | nil => simp [mset, keysNodup, mmem]
  | cons p rest ih =>
    obtain ⟨a, b⟩ := p
    obtain ⟨ha, hrest⟩ := h
    by_cases h2 : a = k
    · subst h2
      have hms : mset ((a, b) :: rest) a v = (a, v) :: rest := by simp [mset]
      rw [hms]
      exact ⟨ha, hrest⟩
    · have hms : mset ((a, b) :: rest) k v = (a, b) :: mset rest k v := by simp [mset, h2]
      rw [hms]
      refine ⟨?_, ih hrest⟩
      show mmem (mset rest k v) a = false
      rw [mmem_mset]
      have hka : ¬ k = a := fun hh => h2 hh.symm
      simpa [hka] using ha

theorem entrySum_eq_mget (m : QMap) (i : String) (h : keysNodup m) :
    entrySum m i = mget m i := by
  induction m with
  | nil => rfl
  | cons p rest ih =>
    obtain ⟨hp, hrest⟩ := h
    by_cases h2 : p.1 = i
    · have hz : keyedSum Prod.fst Prod.snd rest i = 0 := by
        apply keyedSum_eq_zero
        intro x hx hc
        have := mmem_of_mem rest x hx
        rw [hc, ← h2] at this
        rw [this] at hp
        exact Bool.noConfusion hp
      rw [entrySum, keyedSum_cons, if_pos h2, hz]
      simp [mget, h2]
    · rw [entrySum, keyedSum_cons, if_neg h2]
      simp only [mget, if_neg h2]
      rw [zero_add]
      exact ih hrest

/-- Generic association-list lookup, Python dict.get(k) returning None when absent. -/
def alookup {α : Type} : List (String × α) → String → Option α
  | [], _ => none
  | p :: rest, k => if p.1 = k then some p.2 else alookup rest k

/-- One entry of recipe.ingredients in calc.py: a dict with ingredient_id and qty. -/
structure RecipeItem where
  ingredient_id : String
  qty : ℚ
deriving DecidableEq

/-- A recipes document as read by calc.py: base_volume_ml (absent modelled as none)
and the ingredients list. -/
structure Recipe where
  base_volume_ml : Option ℚ
  ingredients : List RecipeItem
deriving DecidableEq

/-- calc.py line 5: float(recipe.get("base_volume_ml", 200)) or 200.0 — the key
defaults to 200 when absent, and a zero value also falls back to 200. -/
def baseMl (r : Recipe) : ℚ :=
  let b := r.base_volume_ml.getD 200
  if b = 0 then 200 else b

/-- calc.py compute_base_consumption (lines 4-12): scale each ingredient quantity
by volume_ml / base and accumulate into a dict, summing repeated ingredient ids. -/
def compute_base_consumption (recipe : Recipe) (volume_ml : ℚ) : QMap :=
  let k := volume_ml / baseMl recipe
  recipe.ingredients.foldl
    (fun out item => mset out item.ingredient_id (mget out item.ingredient_id + item.qty * k))
    []

/-- An add-on on a product document: id and fixed ingredient quantities
(ad.get("ingredients") or {} is modelled by an empty list). -/
structure AddOn where
  id : String
  ingredients : QMap
deriving DecidableEq

/-- A products document as used by calc.py: the recipe_ref field (a path string,
possibly empty or absent; the dict-with-path form reduces to the same string)
and the addons list. -/
structure Product where
  recipe_ref : Option String
  addons : List AddOn
deriving DecidableEq

/-- Python s.split("/")[-1]: the characters after the last slash (the whole
string when no slash occurs), used on recipe_ref in calc.py lines 21-23. -/
def lastSegment (s : String) : String :=
  ⟨s.data.foldl (fun acc c => if c = '/' then [] else acc ++ [c]) []⟩

/-- calc.py lines 18-23: the recipe key is the last path segment of a truthy
recipe_ref; an absent or empty reference (or empty last segment) yields none,
mirroring the falsiness checks on product.get("recipe_ref") and on rkey. -/
def rkey (product : Product) : Option String :=
  match product.recipe_ref with
  | none => none
  | some s =>
    if s = "" then none
    else if lastSegment s = "" then none else some (lastSegment s)

/-- calc.py line 28: addons = a dict keyed by addon id, later duplicates override
earlier ones, then looked up per selected id. -/
def findAddon (addons : List AddOn) (aid : String) : Option AddOn :=
  alookup ((addons.map (fun a => (a.id, a))).reverse) aid

/-- calc.py sum_maps (lines 39-43): key-wise sum of two consumption dicts. -/
def sum_maps (a b : QMap) : QMap :=
  b.foldl (fun out kv => mset out kv.1 (mget out kv.1 + kv.2)) a

/-- calc.py lines 25-26: the base part of consumption_for_item, empty when the
recipe reference does not resolve. -/
def base_total (product : Product) (volume_ml : ℚ) (recipes : List (String × Recipe)) : QMap :=
  match rkey product with
  | some k =>
    match alookup recipes k with
    | some r => sum_maps [] (compute_base_consumption r volume_ml)
    | none => []
  | none => []

/-- calc.py lines 29-34: fold the selected add-on ids over the running total,
silently skipping ids not found on the product and adding fixed quantities. -/
def add_addons (product : Product) (addon_ids : List String) (total : QMap) : QMap :=
  addon_ids.foldl
    (fun tot aid =>
      match findAddon product.addons aid with
      | none => tot
      | some ad => ad.ingredients.foldl (fun t kv => mset t kv.1 (mget t kv.1 + kv.2)) tot)
    total

/-- calc.py consumption_for_item (lines 15-36): base recipe consumption plus
fixed, volume-independent add-on contributions. -/
def consumption_for_item (product : Product) (volume_ml : ℚ) (addon_ids : List String)
    (recipes : List (String × Recipe)) : QMap :=
  add_addons product addon_ids (base_total product volume_ml recipes)

/-- The 1e-9 tolerance used by find_shortages (calc.py line 62). -/
def eps : ℚ := 1 / 1000000000

/-- A shortage record produced by calc.py find_shortages (line 63); the Python
dict key "have" is a Lean keyword and is embedded as the field hv. -/
structure ShortageC where
  ingredient_id : String
  need : ℚ
  hv : ℚ
  deficit : ℚ
deriving DecidableEq

/-- calc.py find_shortages (lines 58-64): an ingredient is short when
have + 1e-9 < required; the record carries need, have and deficit. -/
def find_shortages (need : QMap) (inventory : QMap) : List ShortageC :=
  need.foldl
    (fun shortages kv =>
      let hvq := mget inventory kv.1
      if hvq + eps < kv.2 then shortages ++ [⟨kv.1, kv.2, hvq, kv.2 - hvq⟩] else shortages)
    []

/-- A cart item as documented in sales.py (lines 6-10): the full product document
travels with the item, plus requested volume, integer count, selected add-on ids
and the item price in kopecks. -/
structure SaleItem where
  product : Product
  volume_ml : ℚ
  qty : ℤ
  addons : List String
  price_total_item : ℤ
deriving DecidableEq

/-- Modelled from the spec: price_of_item is imported by sales.py but absent from
src; pricing is a spec non-goal, so the item carries its computed price as data. -/
def price_of_item (it : SaleItem) : ℤ := it.price_total_item

/-- Modelled from the spec: compute_item_consumption and aggregate_consumption are
imported by sales.py but absent from src.  Per spec section 4.2 each cart item
resolves its per-unit consumption (section 4.1, the calc.py resolver), every
quantity is multiplied by the item count and added key-wise into a running total. -/
def cart_need (cart : List SaleItem) (recipes : List (String × Recipe)) : QMap :=
  cart.foldl
    (fun need it =>
      (consumption_for_item it.product it.volume_ml it.addons recipes).foldl
        (fun nd kv => mset nd kv.1 (mget nd kv.1 + kv.2 * (it.qty : ℚ)))
        need)
    []

/-- A shortage record built inside the sales.py transaction (lines 36 and 40):
ingredient, need and have only — no deficit field and no epsilon tolerance. -/
structure ShortageS where
  ingredient : String
  need : ℚ
  hv : ℚ
deriving DecidableEq

/-- Outcome of check_and_commit_sale: the ok dict, the empty-cart error dict, or
the RuntimeError raised inside the transaction carrying all shortages. -/
inductive SaleResult where
  | ok (total_amount : ℤ)
  | emptyCart
  | insufficient (shortages : List ShortageS)
deriving DecidableEq

/-- sales.py lines 32-40: scan every needed ingredient against its transactional
snapshot; a missing document is recorded as a shortage with have 0, an existing
one when current < required (strict, no epsilon). -/
def tx_shortages (need : QMap) (inv : QMap) : List ShortageS :=
  need.foldl
    (fun shortages kv =>
      if mmem inv kv.1 = false then shortages ++ [⟨kv.1, kv.2, 0⟩]
      else if mget inv kv.1 < kv.2 then shortages ++ [⟨kv.1, kv.2, mget inv kv.1⟩]
      else shortages)
    []

/-- sales.py lines 45-49: decrement every needed ingredient, each new value
computed from the transactional snapshot read before any write. -/
def apply_decrements (inv need : QMap) : QMap :=
  need.foldl (fun acc kv => mset acc kv.1 (mget inv kv.1 - kv.2)) inv

/-- sales.py check_and_commit_sale (lines 12-78) over the inventory state: an
empty cart returns the non-ok dict before touching the store; otherwise the
transaction reads all needed snapshots, raises with the full shortage list (all
writes aborted, state unchanged) or commits all decrements and returns ok. -/
def check_and_commit_sale (cart : List SaleItem) (recipes : List (String × Recipe))
    (inv : QMap) : QMap × SaleResult :=
  if cart = [] then (inv, SaleResult.emptyCart)
  else if tx_shortages (cart_need cart recipes) inv = [] then
    (apply_decrements inv (cart_need cart recipes), SaleResult.ok ((cart.map price_of_item).sum))
  else (inv, SaleResult.insufficient (tx_shortages (cart_need cart recipes) inv))

/-- One entry of a recipes document in streamlit_app.py: ingredientId and qtyPer. -/
structure StRecipeItem where
  ingredientId : String
  qtyPer : ℚ
deriving DecidableEq

/-- A sales document written by streamlit_app.py sell_product (lines 187-191). -/
structure StSale where
  product_id : String
  items : List StRecipeItem
deriving DecidableEq

/-- The Firestore state touched by the streamlit_app.py operations: ingredient
stock_quantity values, recipes items keyed by product id, and the sales
collection with the newest sale first (standing for the ts ordering). -/
structure StState where
  stock : QMap
  recipes : List (String × List StRecipeItem)
  sales : List StSale
deriving DecidableEq

/-- streamlit_app.py adjust_stock (lines 165-176): read stock_quantity (default
0), refuse to go below zero, then update the document; updating a missing
document raises, which the function reports as an error string. -/
def adjust_stock (stock : QMap) (ingredient_id : String) (delta : ℚ) :
    QMap × Option String :=
  if mget stock ingredient_id + delta < 0 then (stock, some "cannot take stock below zero")
  else if mmem stock ingredient_id then
    (mset stock ingredient_id (mget stock ingredient_id + delta), none)
  else (stock, some "update of a missing ingredient document")

/-- streamlit_app.py lines 183-186: apply one stock decrement per recipe line,
stopping at the first error and leaving earlier decrements in place. -/
def sell_steps : QMap → List StRecipeItem → QMap × Option String
  | stock, [] => (stock, none)
  | stock, it :: rest =>
    match adjust_stock stock it.ingredientId (-it.qtyPer) with
    | (stock1, none) => sell_steps stock1 rest
    | (stock1, some e) => (stock1, some e)

/-- streamlit_app.py get_recipe (lines 144-149): items of the recipes document,
empty when the document is absent. -/
def getRecipeList (s : StState) (product_id : String) : List StRecipeItem :=
  (alookup s.recipes product_id).getD []

/-- streamlit_app.py sell_product (lines 178-194): no recipe is an error;
otherwise decrement per recipe line and append the sale record. -/
def sell_product (s : StState) (product_id : String) : StState × Option String :=
  if getRecipeList s product_id = [] then (s, some "no recipe for this item")
  else
    match sell_steps s.stock (getRecipeList s product_id) with
    | (stock1, none) =>
      ({ stock := stock1, recipes := s.recipes,
         sales := ⟨product_id, getRecipeList s product_id⟩ :: s.sales }, none)
    | (stock1, some e) => ({ s with stock := stock1 }, some e)

/-- streamlit_app.py lines 203-204: credit every item of the undone sale back,
ignoring any adjust_stock error. -/
def undo_steps : QMap → List StRecipeItem → QMap
  | stock, [] => stock
  | stock, it :: rest => undo_steps (adjust_stock stock it.ingredientId it.qtyPer).1 rest

/-- streamlit_app.py undo_last_sale (lines 196-208): no sale is an error;
otherwise credit back the items of the newest sale and delete its document. -/
def undo_last_sale (s : StState) : StState × Option String :=
  match s.sales with
  | [] => (s, some "no sale to undo")
  | sale :: older =>
    ({ stock := undo_steps s.stock sale.items, recipes := s.recipes, sales := older }, none)

/-- One user-level operation of the streamlit ledger. -/
inductive Op where
  | sell (product_id : String)
  | undo
deriving DecidableEq

/-- Execute one operation, keeping the resulting state. -/
def runOp (s : StState) : Op → StState
  | Op.sell pid => (sell_product s pid).1
  | Op.undo => (undo_last_sale s).1

/-- Execute a finite sequence of sell / undo-last-sale operations. -/
def runOps (s : StState) (ops : List Op) : StState := ops.foldl runOp s

theorem find_shortages_eq (need inv : QMap) :
    find_shortages need inv
      = (need.filter (fun kv => decide (mget inv kv.1 + eps < kv.2))).map
          (fun kv => ⟨kv.1, kv.2, mget inv kv.1, kv.2 - mget inv kv.1⟩) := by
  have h : ∀ (l : QMap) (acc : List ShortageC),
      l.foldl
        (fun shortages kv =>
          if mget inv kv.1 + eps < kv.2 then
            shortages ++ [⟨kv.1, kv.2, mget inv kv.1, kv.2 - mget inv kv.1⟩]
          else shortages) acc
        = acc ++ (l.filter (fun kv => decide (mget inv kv.1 + eps < kv.2))).map
            (fun kv => ⟨kv.1, kv.2, mget inv kv.1, kv.2 - mget inv kv.1⟩) := by
    intro l
    induction l with
    | nil => intro acc; simp
    | cons kv rest ih =>
      intro acc
      by_cases hc : mget inv kv.1 + eps < kv.2
      · rw [List.foldl_cons, if_pos hc, ih]
        simp [List.filter_cons, hc]
      · rw [List.foldl_cons, if_neg hc, ih]
        simp [List.filter_cons, hc]
  exact h need []

theorem tx_shortages_eq (need inv : QMap) :
    tx_shortages need inv
      = (need.filter (fun kv => !(mmem inv kv.1) || decide (mget inv kv.1 < kv.2))).map
          (fun kv => ⟨kv.1, kv.2, mget inv kv.1⟩) := by
  have h : ∀ (l : QMap) (acc : List ShortageS),
      l.foldl
        (fun shortages kv =>
          if mmem inv kv.1 = false then shortages ++ [⟨kv.1, kv.2, 0⟩]
          else if mget inv kv.1 < kv.2 then shortages ++ [⟨kv.1, kv.2, mget inv kv.1⟩]
          else shortages) acc
        = acc ++ (l.filter (fun kv => !(mmem inv kv.1) || decide (mget inv kv.1 < kv.2))).map
            (fun kv => ⟨kv.1, kv.2, mget inv kv.1⟩) := by
    intro l
    induction l with
    | nil => intro acc; simp
    | cons kv rest ih =>
      intro acc
      by_cases hm : mmem inv kv.1 = false
      · rw [List.foldl_cons, if_pos hm, ih]
        simp [List.filter_cons, hm, mget_eq_zero_of_not_mmem inv kv.1 hm]
      · have hm2 : mmem inv kv.1 = true := by
          cases hq : mmem inv kv.1
          · exact absurd hq hm
          · rfl
        by_cases hc : mget inv kv.1 < kv.2
        · rw [List.foldl_cons, if_neg hm, if_pos hc, ih]
          simp [List.filter_cons, hm2, hc]
        · rw [List.foldl_cons, if_neg hm, if_neg hc, ih]
          simp [List.filter_cons, hm2, hc]
  exact h need []

/-- Total quantity attached to ingredient i in the recipe's ingredient list,
summing repeated ids. -/
def recipeQty (r : Recipe) (i : String) : ℚ :=
  keyedSum (fun it => it.ingredient_id) (fun it => it.qty) r.ingredients i

theorem mget_compute_base_consumption (r : Recipe) (v : ℚ) (i : String) :
    mget (compute_base_consumption r v) i = recipeQty r i * (v / baseMl r) := by
  have h := mget_foldl_add (fun it : RecipeItem => it.ingredient_id)
    (fun it : RecipeItem => it.qty * (v / baseMl r)) r.ingredients [] i
  rw [keyedSum_mul] at h
  simpa [compute_base_consumption, recipeQty, mget] using h

theorem keysNodup_foldl_mset {α : Type} (key : α → String) (g : QMap → α → ℚ) :
    ∀ (l : List α) (acc : QMap), keysNodup acc →
      keysNodup (l.foldl (fun m x => mset m (key x) (g m x)) acc)
  | [], _, h => h
  | x :: rest, acc, h =>
    keysNodup_foldl_mset key g rest (mset acc (key x) (g acc x)) (keysNodup_mset _ _ _ h)

theorem keysNodup_compute_base_consumption (r : Recipe) (v : ℚ) :
    keysNodup (compute_base_consumption r v) := by
  have h := keysNodup_foldl_mset (fun it : RecipeItem => it.ingredient_id)
    (fun m it => mget m it.ingredient_id + it.qty * (v / baseMl r)) r.ingredients []
    (by trivial)
  simpa [compute_base_consumption] using h

theorem mget_sum_maps (a b : QMap) (i : String) :
    mget (sum_maps a b) i = mget a i + entrySum b i := by
  have h := mget_foldl_add Prod.fst Prod.snd b a i
  simpa [sum_maps, entrySum] using h

/-- The product's recipe reference resolves to a recipe present in the store. -/
def resolves (product : Product) (recipes : List (String × Recipe)) : Bool :=
  match rkey product with
  | some k => (alookup recipes k).isSome
  | none => false

theorem base_total_resolved (p : Product) (v : ℚ) (rs : List (String × Recipe))
    (k : String) (r : Recipe) (hk : rkey p = some k) (hr : alookup rs k = some r) (i : String) :
    mget (base_total p v rs) i = recipeQty r i * (v / baseMl r) := by
  simp only [base_total, hk, hr]
  rw [mget_sum_maps, entrySum_eq_mget _ _ (keysNodup_compute_base_consumption r v),
    mget_compute_base_consumption]
  simp [mget]

theorem base_total_unresolved (p : Product) (v : ℚ) (rs : List (String × Recipe))
    (h : resolves p rs = false) : base_total p v rs = [] := by
  cases hk : rkey p with
  | none => simp only [base_total, hk]
  | some k =>
    cases hr : alookup rs k with
    | none => simp only [base_total, hk, hr]
    | some r =>
      simp only [resolves, hk, hr, Option.isSome_some] at h
      exact Bool.noConfusion h

/-- Fixed add-on contribution to ingredient i of a list of selected add-on ids:
each id found on the product contributes the entry sum of its ingredients map,
ids not found contribute nothing. -/
def addonSum (product : Product) (addon_ids : List String) (i : String) : ℚ :=
  (addon_ids.map
    (fun aid =>
      match findAddon product.addons aid with
      | none => 0
      | some ad => entrySum ad.ingredients i)).sum

theorem mget_add_addons (p : Product) :
    ∀ (addon_ids : List String) (t : QMap) (i : String),
      mget (add_addons p addon_ids t) i = mget t i + addonSum p addon_ids i
  | [], t, i => by
    rw [add_addons, List.foldl_nil, addonSum, List.map_nil, List.sum_nil, add_zero]
  | aid :: rest, t, i => by
    rw [add_addons, List.foldl_cons, addonSum, List.map_cons, List.sum_cons]
    cases hf : findAddon p.addons aid with
    | none =>
      simp only [hf]
      have h := mget_add_addons p rest t i
      rw [add_addons] at h
      rw [h, addonSum, zero_add]
    | some ad =>
      simp only [hf]
      have h := mget_add_addons p rest (sum_maps t ad.ingredients) i
      rw [add_addons] at h
      have hstep : (ad.ingredients.foldl (fun t2 kv => mset t2 kv.1 (mget t2 kv.1 + kv.2)) t)
          = sum_maps t ad.ingredients := rfl
      rw [hstep, h, mget_sum_maps, addonSum]
      ring

/-- Total qtyPer attached to ingredient j in a list of recipe lines. -/
def creditSum (items : List StRecipeItem) (j : String) : ℚ :=
  keyedSum (fun it => it.ingredientId) (fun it => it.qtyPer) items j

theorem mmem_mset_self (m : QMap) (k : String) (v : ℚ) (j : String)
    (h : mmem m k = true) : mmem (mset m k v) j = mmem m j := by
  rw [mmem_mset]
  by_cases h2 : k = j
  · rw [if_pos h2, ← h2, h]
  · rw [if_neg h2]

theorem adjust_stock_nonneg (m : QMap) (iid : String) (d : ℚ) (hm : StockNonneg m) :
    StockNonneg (adjust_stock m iid d).1 := by
  rw [adjust_stock]
  split_ifs with h1 h2
  · exact hm
  · exact mset_nonneg m iid _ hm (not_lt.mp h1)
  · exact hm

theorem adjust_stock_ok (m : QMap) (iid : String) (d : ℚ) (m2 : QMap)
    (h : adjust_stock m iid d = (m2, none)) :
    m2 = mset m iid (mget m iid + d) ∧ 0 ≤ mget m iid + d ∧ mmem m iid = true := by
  rw [adjust_stock] at h
  split_ifs at h with h1 h2
  · exact absurd (congrArg Prod.snd h) (by simp)
  · exact ⟨(congrArg Prod.fst h).symm, not_lt.mp h1, h2⟩
  · exact absurd (congrArg Prod.snd h) (by simp)

theorem adjust_stock_succeeds (m : QMap) (iid : String) (d : ℚ)
    (h1 : 0 ≤ mget m iid + d) (h2 : mmem m iid = true) :
    adjust_stock m iid d = (mset m iid (mget m iid + d), none) := by
  rw [adjust_stock, if_neg (not_lt.mpr h1), if_pos h2]

theorem sell_steps_nonneg :
    ∀ (items : List StRecipeItem) (m : QMap), StockNonneg m →
      StockNonneg (sell_steps m items).1
  | [], m, hm => hm
  | it :: rest, m, hm => by
    rw [sell_steps]
    cases ha : adjust_stock m it.ingredientId (-it.qtyPer) with
    | mk m1 r =>
      have hm1 : StockNonneg m1 := by
        have := adjust_stock_nonneg m it.ingredientId (-it.qtyPer) hm
        rw [ha] at this
        exact this
      cases r with
      | none => exact sell_steps_nonneg rest m1 hm1
      | some e => exact hm1

theorem undo_steps_nonneg :
    ∀ (items : List StRecipeItem) (m : QMap), StockNonneg m →
      StockNonneg (undo_steps m items)
  | [], _, hm => hm
  | it :: rest, m, hm =>
    undo_steps_nonneg rest _ (adjust_stock_nonneg m it.ingredientId it.qtyPer hm)

theorem sell_spec :
    ∀ (items : List StRecipeItem) (m m2 : QMap),
      (∀ it ∈ items, 0 ≤ it.qtyPer) → sell_steps m items = (m2, none) →
      (∀ j, mget m2 j = mget m j - creditSum items j)
      ∧ (∀ j, mmem m2 j = mmem m j)
      ∧ (∀ it ∈ items, mmem m it.ingredientId = true ∧ 0 ≤ mget m2 it.ingredientId)
  | [], m, m2, _, h => by
    rw [sell_steps] at h
    have h1 : m = m2 := congrArg Prod.fst h
    subst h1
    exact ⟨fun j => by simp [creditSum, keyedSum], fun j => rfl,
      fun it hit => absurd hit (by simp)⟩
  | it :: rest, m, m2, hq, h => by
    rw [sell_steps] at h
    cases ha : adjust_stock m it.ingredientId (-it.qtyPer) with
    | mk m1 r =>
      rw [ha] at h
      cases r with
      | some e => exact absurd (congrArg Prod.snd h) (by simp)
      | none =>
        obtain ⟨hm1, hge, hmem⟩ := adjust_stock_ok m it.ingredientId (-it.qtyPer) m1 ha
        have hqr : ∀ it2 ∈ rest, 0 ≤ it2.qtyPer :=
          fun it2 h2 => hq it2 (List.mem_cons_of_mem _ h2)
        obtain ⟨ih1, ih2, ih3⟩ := sell_spec rest m1 m2 hqr h
        have hmget1 : ∀ j, mget m1 j
            = if it.ingredientId = j then mget m it.ingredientId + -it.qtyPer else mget m j :=
          fun j => by rw [hm1, mget_mset]
        have hmmem1 : ∀ j, mmem m1 j = mmem m j :=
          fun j => by rw [hm1, mmem_mset_self m _ _ j hmem]
        refine ⟨?_, ?_, ?_⟩
        · intro j
          rw [ih1 j, hmget1 j]
          simp only [creditSum, keyedSum_cons]
          by_cases hj : it.ingredientId = j
          · subst hj
            simp only [eq_self_iff_true, if_true]
            ring
          · simp only [if_neg hj]
            ring
        · intro j
          rw [ih2 j, hmmem1 j]
        · intro it2 hit2
          rcases List.mem_cons.mp hit2 with h2 | h2
          · subst h2
            refine ⟨hmem, ?_⟩
            by_cases hex : ∃ it3 ∈ rest, it3.ingredientId = it2.ingredientId
            · obtain ⟨it3, hit3, he3⟩ := hex
              have := (ih3 it3 hit3).2
              rwa [he3] at this
            · push_neg at hex
              have hz : creditSum rest it2.ingredientId = 0 :=
                keyedSum_eq_zero _ _ _ _ hex
              rw [ih1 _, hz, hmget1 _, if_pos rfl]
              simpa using hge
          · obtain ⟨ha2, hb2⟩ := ih3 it2 h2
            exact ⟨by rw [← hmmem1 _]; exact ha2, hb2⟩

theorem undo_spec :
    ∀ (items : List StRecipeItem) (m : QMap),
      (∀ it ∈ items, 0 ≤ it.qtyPer ∧ mmem m it.ingredientId = true
        ∧ 0 ≤ mget m it.ingredientId) →
      ∀ j, mget (undo_steps m items) j = mget m j + creditSum items j
  | [], m, _, j => by simp [undo_steps, creditSum, keyedSum]
  | it :: rest, m, hc, j => by
    obtain ⟨hq, hmem, hge⟩ := hc it (List.mem_cons_self _ _)
    have hok : adjust_stock m it.ingredientId it.qtyPer
        = (mset m it.ingredientId (mget m it.ingredientId + it.qtyPer), none) :=
      adjust_stock_succeeds m _ _ (by positivity) hmem
    rw [undo_steps, hok]
    have hrest : ∀ it2 ∈ rest, 0 ≤ it2.qtyPer
        ∧ mmem (mset m it.ingredientId (mget m it.ingredientId + it.qtyPer)) it2.ingredientId = true
        ∧ 0 ≤ mget (mset m it.ingredientId (mget m it.ingredientId + it.qtyPer)) it2.ingredientId := by
      intro it2 h2
      obtain ⟨hq2, hmem2, hge2⟩ := hc it2 (List.mem_cons_of_mem _ h2)
      refine ⟨hq2, by rw [mmem_mset_self m _ _ _ hmem]; exact hmem2, ?_⟩
      rw [mget_mset]
      by_cases hj : it.ingredientId = it2.ingredientId
      · rw [if_pos hj]
        positivity
      · rw [if_neg hj]
        exact hge2
    rw [undo_spec rest _ hrest j, mget_mset]
    simp only [creditSum, keyedSum_cons]
    by_cases hj : it.ingredientId = j
    · subst hj
      simp only [eq_self_iff_true, if_true]
      ring
    · simp only [if_neg hj]
      ring

theorem sell_product_nonneg (s : StState) (pid : String) (h : StockNonneg s.stock) :
    StockNonneg ((sell_product s pid).1).stock := by
  simp only [sell_product]
  by_cases hr : getRecipeList s pid = []
  · rw [if_pos hr]
    exact h
  · rw [if_neg hr]
    cases hs : sell_steps s.stock (getRecipeList s pid) with
    | mk m1 r =>
      have hn := sell_steps_nonneg (getRecipeList s pid) s.stock h
      rw [hs] at hn
      cases r <;> simpa using hn

theorem undo_last_sale_nonneg (s : StState) (h : StockNonneg s.stock) :
    StockNonneg ((undo_last_sale s).1).stock := by
  cases hs : s.sales with
  | nil =>
    simp only [undo_last_sale, hs]
    exact h
  | cons sale older =>
    simp only [undo_last_sale, hs]
    exact undo_steps_nonneg sale.items s.stock h

theorem runOp_nonneg (s : StState) (op : Op) (h : StockNonneg s.stock) :
    StockNonneg (runOp s op).stock := by
  cases op with
  | sell pid => exact sell_product_nonneg s pid h
  | undo => exact undo_last_sale_nonneg s h

theorem runOps_nonneg :
    ∀ (ops : List Op) (s : StState), StockNonneg s.stock →
      StockNonneg (runOps s ops).stock
  | [], _, h => h
  | op :: rest, s, h => runOps_nonneg rest (runOp s op) (runOp_nonneg s op h)

theorem foldl_decrement_nonneg (inv : QMap) :
    ∀ (l acc : QMap), StockNonneg acc → (∀ kv ∈ l, kv.2 ≤ mget inv kv.1) →
      StockNonneg (l.foldl (fun a kv => mset a kv.1 (mget inv kv.1 - kv.2)) acc)
  | [], _, h, _ => h
  | kv :: rest, acc, h, hc =>
    foldl_decrement_nonneg inv rest _
      (mset_nonneg _ _ _ h
        (by
          have := hc kv (List.mem_cons_self _ _)
          linarith))
      (fun kv2 h2 => hc kv2 (List.mem_cons_of_mem _ h2))

theorem apply_decrements_nonneg (inv need : QMap) (hm : StockNonneg inv)
    (hc : ∀ kv ∈ need, kv.2 ≤ mget inv kv.1) : StockNonneg (apply_decrements inv need) :=
  foldl_decrement_nonneg inv need inv hm hc

theorem tx_shortages_nil (need inv : QMap) (h : tx_shortages need inv = []) :
    ∀ kv ∈ need, mmem inv kv.1 = true ∧ kv.2 ≤ mget inv kv.1 := by
  rw [tx_shortages_eq] at h
  intro kv hkv
  have hp := List.filter_eq_nil_iff.mp (List.map_eq_nil_iff.mp h) kv hkv
  simp only [Bool.or_eq_true, Bool.not_eq_true', decide_eq_true_eq, not_or] at hp
  obtain ⟨h1, h2⟩ := hp
  refine ⟨?_, not_lt.mp h2⟩
  cases hq : mmem inv kv.1
  · exact absurd hq h1
  · rfl

/-- Claim C10: selling an empty cart always fails with the structured non-ok
result and leaves the inventory state untouched; no consumption is aggregated
and no sale is recorded (sales.py lines 13-14 return before any store access). -/
theorem C10_empty_cart_no_reads_no_writes (recipes : List (String × Recipe)) (inv : QMap) :
    check_and_commit_sale [] recipes inv = (inv, SaleResult.emptyCart) := by
  rw [check_and_commit_sale, if_pos rfl]

/-- Claim C4 (amended): the scale factor is volume divided by the recipe base
volume itself, where the base volume defaults to 200 when the field is unset or
zero (not volume / max(base, 200)); each recipe ingredient contributes
qtyPerBase * k, summed over repeated ingredient ids. -/
theorem C4_consumption_formula (r : Recipe) (v : ℚ) (i : String) :
    mget (compute_base_consumption r v) i = recipeQty r i * (v / baseMl r) :=
  mget_compute_base_consumption r v i

/-- The scale-factor denominator as the claim words it: the larger of the
(defaulted) base volume and 200. -/
def claimed_scale_factor (r : Recipe) (v : ℚ) : ℚ := v / max (baseMl r) 200

/-- A recipe with a positive base volume below 200: ten units of beans per
100 ml base. -/
def c4recipe : Recipe := ⟨some 100, [⟨"beans", 10⟩]⟩

/-- Claim C4 counterexample: at base volume 100 and requested volume 100 the
code consumes 10 (scale factor 1 = 100/100), while the claimed
volume / max(base, 200) formula would give 5. -/
theorem C4_counterexample :
    mget (compute_base_consumption c4recipe 100) "beans" = 10
    ∧ recipeQty c4recipe "beans" * claimed_scale_factor c4recipe 100 = 5
    ∧ (10 : ℚ) ≠ 5 := by
  refine ⟨?_, ?_, by norm_num⟩
  · simp [compute_base_consumption, c4recipe, baseMl, mget, mset]
  · simp [recipeQty, keyedSum, c4recipe, claimed_scale_factor, baseMl]
    norm_num

/-- Claim C3: for a product whose recipe reference resolves, consumption with no
add-ons scales linearly in the requested volume: doubling the volume exactly
doubles every ingredient quantity. -/
theorem C3_linear_scaling (p : Product) (rs : List (String × Recipe)) (v : ℚ) (i : String)
    (h : resolves p rs = true) :
    mget (consumption_for_item p (2 * v) [] rs) i
      = 2 * mget (consumption_for_item p v [] rs) i := by
  have hkr : ∃ k, rkey p = some k ∧ ∃ r, alookup rs k = some r := by
    cases hk : rkey p with
    | none =>
      simp only [resolves, hk] at h
      exact Bool.noConfusion h
    | some k =>
      cases hr : alookup rs k with
      | none =>
        simp only [resolves, hk, hr, Option.isSome_none] at h
        exact Bool.noConfusion h
      | some r => exact ⟨k, rfl, r, hr⟩
  obtain ⟨k, hk, r, hr⟩ := hkr
  have e1 : consumption_for_item p (2 * v) [] rs = base_total p (2 * v) rs := rfl
  have e2 : consumption_for_item p v [] rs = base_total p v rs := rfl
  rw [e1, e2, base_total_resolved p (2 * v) rs k r hk hr i,
    base_total_resolved p v rs k r hk hr i, mul_div_assoc]
  ring

/-- Sample product and recipe store for the linear-scaling witness. -/
def c3prod : Product := ⟨some "recipes/latte", []⟩

/-- Recipe store holding the latte recipe at base volume 200. -/
def c3rs : List (String × Recipe) := [("latte", ⟨some 200, [⟨"milk", 150⟩, ⟨"beans", 18⟩]⟩)]

theorem C3_witness :
    resolves c3prod c3rs = true
    ∧ mget (consumption_for_item c3prod (2 * 300) [] c3rs) "milk"
        = 2 * mget (consumption_for_item c3prod 300 [] c3rs) "milk" :=
  ⟨by decide, C3_linear_scaling c3prod c3rs 300 "milk" (by decide)⟩

theorem add_addons_cons (p : Product) (aid : String) (l : List String) (t : QMap) :
    add_addons p (aid :: l) t
      = add_addons p l
          (match findAddon p.addons aid with
           | none => t
           | some ad => ad.ingredients.foldl (fun t2 kv => mset t2 kv.1 (mget t2 kv.1 + kv.2)) t) :=
  rfl

theorem add_addons_filter (p : Product) :
    ∀ (ids : List String) (t : QMap),
      add_addons p (ids.filter (fun aid => (findAddon p.addons aid).isSome)) t
        = add_addons p ids t
  | [], _ => rfl
  | aid :: rest, t => by
    cases hf : findAddon p.addons aid with
    | none =>
      rw [List.filter_cons_of_neg (by simp [hf]), add_addons_filter p rest t,
        add_addons_cons]
      simp only [hf]
    | some ad =>
      rw [List.filter_cons_of_pos (by simp [hf]), add_addons_cons, add_addons_cons]
      simp only [hf]
      exact add_addons_filter p rest _

/-- Claim C8: the add-on portion of the consumption map is volume-invariant
(the difference between consumption with and without the selected add-on ids
does not depend on the requested volume), and selected add-on ids not found on
the product are silently ignored (filtering them out changes nothing). -/
theorem C8_addons_fixed_and_unknown_ignored :
    (∀ (p : Product) (rs : List (String × Recipe)) (v w : ℚ) (ids : List String) (i : String),
      mget (consumption_for_item p v ids rs) i - mget (consumption_for_item p v [] rs) i
        = mget (consumption_for_item p w ids rs) i - mget (consumption_for_item p w [] rs) i)
    ∧ (∀ (p : Product) (rs : List (String × Recipe)) (v : ℚ) (ids : List String),
      consumption_for_item p v (ids.filter (fun aid => (findAddon p.addons aid).isSome)) rs
        = consumption_for_item p v ids rs) := by
  constructor
  · intro p rs v w ids i
    show mget (add_addons p ids (base_total p v rs)) i
        - mget (add_addons p [] (base_total p v rs)) i
      = mget (add_addons p ids (base_total p w rs)) i
        - mget (add_addons p [] (base_total p w rs)) i
    rw [mget_add_addons, mget_add_addons, mget_add_addons, mget_add_addons]
    simp only [addonSum, List.map_nil, List.sum_nil]
    ring
  · intro p rs v ids
    exact add_addons_filter p ids (base_total p v rs)

/-- Claim C5 (amended): the pre-check find_shortages records a shortage exactly
when current + 1e-9 < required and carries ingredient, required, available and
deficit = required - available; the transactional validation in
check_and_commit_sale instead records a shortage exactly when the ingredient
document is missing (available 0) or current < required with no epsilon
tolerance, and its record carries no deficit field. -/
theorem C5_shortage_conditions :
    (∀ (need inv : QMap) (i : String) (r hvq d : ℚ),
      ShortageC.mk i r hvq d ∈ find_shortages need inv
        ↔ (i, r) ∈ need ∧ hvq = mget inv i ∧ mget inv i + eps < r ∧ d = r - mget inv i)
    ∧ (∀ (need inv : QMap) (i : String) (r hvq : ℚ),
      ShortageS.mk i r hvq ∈ tx_shortages need inv
        ↔ (i, r) ∈ need ∧ hvq = mget inv i ∧ (mmem inv i = false ∨ mget inv i < r)) := by
  constructor
  · intro need inv i r hvq d
    rw [find_shortages_eq]
    constructor
    · intro hmem
      obtain ⟨kv, hkv, heq⟩ := List.mem_map.mp hmem
      obtain ⟨hkv1, hp⟩ := List.mem_filter.mp hkv
      simp only [ShortageC.mk.injEq] at heq
      obtain ⟨e1, e2, e3, e4⟩ := heq
      simp only [decide_eq_true_eq] at hp
      refine ⟨?_, ?_, ?_, ?_⟩
      · rw [← e1, ← e2]
        exact hkv1
      · rw [← e1]
        exact e3.symm
      · rw [← e1, ← e2]
        exact hp
      · rw [← e1, ← e2]
        exact e4.symm
    · rintro ⟨hmem, hh, hlt, hd⟩
      apply List.mem_map.mpr
      refine ⟨(i, r), List.mem_filter.mpr ⟨hmem, by simpa using hlt⟩, ?_⟩
      simp [hh, hd]
  · intro need inv i r hvq
    rw [tx_shortages_eq]
    constructor
    · intro hmem
      obtain ⟨kv, hkv, heq⟩ := List.mem_map.mp hmem
      obtain ⟨hkv1, hp⟩ := List.mem_filter.mp hkv
      simp only [ShortageS.mk.injEq] at heq
      obtain ⟨e1, e2, e3⟩ := heq
      simp only [Bool.or_eq_true, Bool.not_eq_true', decide_eq_true_eq] at hp
      refine ⟨?_, ?_, ?_⟩
      · rw [← e1, ← e2]
        exact hkv1
      · rw [← e1]
        exact e3.symm
      · rw [← e1, ← e2]
        exact hp
    · rintro ⟨hmem, hh, hor⟩
      apply List.mem_map.mpr
      refine ⟨(i, r), List.mem_filter.mpr ⟨hmem, ?_⟩, by simp [hh]⟩
      simp only [Bool.or_eq_true, Bool.not_eq_true', decide_eq_true_eq]
      exact hor

/-- Recipe store for the epsilon counterexample: one millilitre of milk per
200 ml base volume. -/
def c5rs : List (String × Recipe) := [("mocha", ⟨some 200, [⟨"milk", 1⟩]⟩)]

/-- Product referencing the mocha recipe. -/
def c5prod : Product := ⟨some "recipes/mocha", []⟩

/-- Cart with one 200 ml mocha, so that exactly 1 unit of milk is needed. -/
def c5cart : List SaleItem := [⟨c5prod, 200, 1, [], 0⟩]

/-- Inventory within the 1e-9 tolerance of the requirement: 1 - 1e-10 milk. -/
def c5inv : QMap := [("milk", 1 - 1 / 10000000000)]

/-- Claim C5 counterexample: with available = required - 1e-10, the claimed
current + 1e-9 < required test records no shortage, yet the transactional
validation of check_and_commit_sale rejects the sale with a shortage record
(which also carries no deficit field). -/
theorem C5_counterexample :
    check_and_commit_sale c5cart c5rs c5inv
      = (c5inv, SaleResult.insufficient [⟨"milk", 1, 1 - 1 / 10000000000⟩])
    ∧ ¬ (mget c5inv "milk" + eps < 1)
    ∧ find_shortages (cart_need c5cart c5rs) c5inv = [] := by
  refine ⟨?_, ?_, ?_⟩
  · simp [check_and_commit_sale, c5cart, c5rs, c5inv, c5prod, cart_need,
      consumption_for_item, add_addons, base_total, rkey, lastSegment, alookup,
      compute_base_consumption, baseMl, mget, mset, sum_maps, tx_shortages, mmem]
  · simp [c5inv, mget, eps]
    norm_num
  · simp [find_shortages, c5cart, c5rs, c5inv, c5prod, cart_need,
      consumption_for_item, add_addons, base_total, rkey, lastSegment, alookup,
      compute_base_consumption, baseMl, mget, mset, sum_maps, eps]
    norm_num

/-- Claim C1: when the aggregated need of a cart exceeds the available stock for
at least one needed ingredient, check_and_commit_sale leaves the inventory state
exactly as it was (the transaction raises before any write) and the rejection
carries a shortage entry for every short ingredient, not only the first. -/
theorem C1_rejection_complete_and_pure (cart : List SaleItem)
    (rs : List (String × Recipe)) (inv : QMap) (i : String)
    (hmem : mmem (cart_need cart rs) i = true)
    (hlt : mget inv i < mget (cart_need cart rs) i) :
    (check_and_commit_sale cart rs inv).1 = inv
    ∧ ∃ sh, (check_and_commit_sale cart rs inv).2 = SaleResult.insufficient sh
        ∧ ∀ j, mmem (cart_need cart rs) j = true →
            mget inv j < mget (cart_need cart rs) j →
            j ∈ sh.map ShortageS.ingredient := by
  have hcart : ¬ cart = [] := by
    intro hc
    subst hc
    rw [show cart_need [] rs = [] from rfl] at hmem
    exact Bool.noConfusion hmem
  have short_mem : ∀ j, mmem (cart_need cart rs) j = true →
      mget inv j < mget (cart_need cart rs) j →
      ShortageS.mk j (mget (cart_need cart rs) j) (mget inv j)
        ∈ tx_shortages (cart_need cart rs) inv := by
    intro j hjm hjl
    rw [tx_shortages_eq]
    apply List.mem_map.mpr
    refine ⟨(j, mget (cart_need cart rs) j),
      List.mem_filter.mpr ⟨mem_of_mmem _ j hjm, ?_⟩, rfl⟩
    simp only [Bool.or_eq_true, decide_eq_true_eq]
    exact Or.inr hjl
  have hshne : ¬ tx_shortages (cart_need cart rs) inv = [] := by
    intro h0
    have := short_mem i hmem hlt
    rw [h0] at this
    exact absurd this (List.not_mem_nil _)
  have hres : check_and_commit_sale cart rs inv
      = (inv, SaleResult.insufficient (tx_shortages (cart_need cart rs) inv)) := by
    rw [check_and_commit_sale, if_neg hcart, if_neg hshne]
  refine ⟨by rw [hres], tx_shortages (cart_need cart rs) inv, by rw [hres], ?_⟩
  intro j hjm hjl
  apply List.mem_map.mpr
  exact ⟨ShortageS.mk j (mget (cart_need cart rs) j) (mget inv j),
    short_mem j hjm hjl, rfl⟩

/-- Recipe store for the C1 witness: a latte needs 18 beans and 150 milk per
200 ml base. -/
def c1rs : List (String × Recipe) := [("latte", ⟨some 200, [⟨"beans", 18⟩, ⟨"milk", 150⟩]⟩)]

/-- Product referencing the latte recipe. -/
def c1prod : Product := ⟨some "recipes/latte", []⟩

/-- Cart with one 200 ml latte. -/
def c1cart : List SaleItem := [⟨c1prod, 200, 1, [], 25000⟩]

/-- Inventory short on beans (10 < 18) but fine on milk. -/
def c1inv : QMap := [("beans", 10), ("milk", 500)]

theorem C1_witness :
    mmem (cart_need c1cart c1rs) "beans" = true
    ∧ mget c1inv "beans" < mget (cart_need c1cart c1rs) "beans"
    ∧ ((check_and_commit_sale c1cart c1rs c1inv).1 = c1inv
      ∧ ∃ sh, (check_and_commit_sale c1cart c1rs c1inv).2 = SaleResult.insufficient sh
          ∧ ∀ j, mmem (cart_need c1cart c1rs) j = true →
              mget c1inv j < mget (cart_need c1cart c1rs) j →
              j ∈ sh.map ShortageS.ingredient) :=
  ⟨by decide,
   by
    simp [c1cart, c1rs, c1inv, c1prod, cart_need, consumption_for_item, add_addons,
      base_total, rkey, lastSegment, alookup, compute_base_consumption, baseMl,
      mget, mset, sum_maps]
    norm_num,
   C1_rejection_complete_and_pure c1cart c1rs c1inv "beans"
    (by decide)
    (by
      simp [c1cart, c1rs, c1inv, c1prod, cart_need, consumption_for_item, add_addons,
        base_total, rkey, lastSegment, alookup, compute_base_consumption, baseMl,
        mget, mset, sum_maps]
      norm_num)⟩

/-- Claim C9 (amended): a sale whose aggregated need references an ingredient id
absent from the inventory store is rejected inside the transaction through the
ordinary shortage path: the rejection carries a shortage entry for that
ingredient with available 0, all writes are aborted (state unchanged), and no
distinct UnknownIngredient error exists in the code. -/
theorem C9_missing_ingredient_is_shortage (cart : List SaleItem)
    (rs : List (String × Recipe)) (inv : QMap) (i : String)
    (hmem : mmem (cart_need cart rs) i = true)
    (habs : mmem inv i = false) :
    (check_and_commit_sale cart rs inv).1 = inv
    ∧ ∃ sh, (check_and_commit_sale cart rs inv).2 = SaleResult.insufficient sh
        ∧ ShortageS.mk i (mget (cart_need cart rs) i) 0 ∈ sh := by
  have hcart : ¬ cart = [] := by
    intro hc
    subst hc
    rw [show cart_need [] rs = [] from rfl] at hmem
    exact Bool.noConfusion hmem
  have hz : mget inv i = 0 := mget_eq_zero_of_not_mmem inv i habs
  have short_mem : ShortageS.mk i (mget (cart_need cart rs) i) 0
      ∈ tx_shortages (cart_need cart rs) inv := by
    rw [tx_shortages_eq]
    apply List.mem_map.mpr
    refine ⟨(i, mget (cart_need cart rs) i),
      List.mem_filter.mpr ⟨mem_of_mmem _ i hmem, ?_⟩, by rw [hz]⟩
    simp only [Bool.or_eq_true, Bool.not_eq_true', decide_eq_true_eq]
    exact Or.inl habs
  have hshne : ¬ tx_shortages (cart_need cart rs) inv = [] := by
    intro h0
    rw [h0] at short_mem
    exact absurd short_mem (List.not_mem_nil _)
  have hres : check_and_commit_sale cart rs inv
      = (inv, SaleResult.insufficient (tx_shortages (cart_need cart rs) inv)) := by
    rw [check_and_commit_sale, if_neg hcart, if_neg hshne]
  exact ⟨by rw [hres], tx_shortages (cart_need cart rs) inv, by rw [hres], short_mem⟩

/-- Recipe store for the unknown-ingredient case: the drink needs 10 units of an
ingredient id that the inventory store does not contain. -/
def c9rs : List (String × Recipe) := [("ghost_drink", ⟨some 200, [⟨"ghost", 10⟩]⟩)]

/-- Product referencing the ghost_drink recipe. -/
def c9prod : Product := ⟨some "recipes/ghost_drink", []⟩

/-- Cart with one 200 ml ghost_drink. -/
def c9cart : List SaleItem := [⟨c9prod, 200, 1, [], 100⟩]

/-- Inventory without the ghost ingredient. -/
def c9inv : QMap := [("beans", 100)]

/-- Claim C9 counterexample: the unknown ingredient produces the very same
insufficient-stock rejection (a shortage record with available 0), not a
distinct fatal UnknownIngredient error — the result type of the code has no
such outcome. -/
theorem C9_counterexample :
    check_and_commit_sale c9cart c9rs c9inv
      = (c9inv, SaleResult.insufficient [⟨"ghost", 10, 0⟩]) := by
  simp [check_and_commit_sale, c9cart, c9rs, c9inv, c9prod, cart_need,
    consumption_for_item, add_addons, base_total, rkey, lastSegment, alookup,
    compute_base_consumption, baseMl, mget, mset, sum_maps, tx_shortages, mmem]

theorem C9_witness :
    mmem (cart_need c9cart c9rs) "ghost" = true
    ∧ mmem c9inv "ghost" = false
    ∧ ((check_and_commit_sale c9cart c9rs c9inv).1 = c9inv
      ∧ ∃ sh, (check_and_commit_sale c9cart c9rs c9inv).2 = SaleResult.insufficient sh
          ∧ ShortageS.mk "ghost" (mget (cart_need c9cart c9rs) "ghost") 0 ∈ sh) :=
  ⟨by decide, by decide,
   C9_missing_ingredient_is_shortage c9cart c9rs c9inv "ghost" (by decide) (by decide)⟩

/-- Claim C2: starting from any state whose stored quantities are all
nonnegative, every finite sequence of sell and undo-last-sale operations keeps
every stored quantity nonnegative (every mutation passes through the
adjust_stock guard or the transactional shortage check). -/
theorem C2_stock_never_negative :
    (∀ (s : StState) (ops : List Op), StockNonneg s.stock →
      StockNonneg (runOps s ops).stock)
    ∧ (∀ (cart : List SaleItem) (rs : List (String × Recipe)) (inv : QMap),
      StockNonneg inv → StockNonneg (check_and_commit_sale cart rs inv).1) := by
  constructor
  · intro s ops h
    exact runOps_nonneg ops s h
  · intro cart rs inv h
    by_cases hc : cart = []
    · rw [check_and_commit_sale, if_pos hc]
      exact h
    · rw [check_and_commit_sale, if_neg hc]
      by_cases hs : tx_shortages (cart_need cart rs) inv = []
      · rw [if_pos hs]
        exact apply_decrements_nonneg inv _ h
          (fun kv hkv => (tx_shortages_nil _ _ hs kv hkv).2)
      · rw [if_neg hs]
        exact h

/-- Starting state for the invariant witness: two stocked ingredients and an
espresso recipe. -/
def c2state : StState :=
  ⟨[("beans", 100), ("milk", 200)], [("espresso", [⟨"beans", 18⟩])], []⟩

/-- A sequence with a sale, an undo and a sale of an unknown product. -/
def c2ops : List Op := [Op.sell "espresso", Op.undo, Op.sell "nothing"]

/-- Recipe store for the transactional half of the invariant witness. -/
def c2rs : List (String × Recipe) := [("espresso", ⟨some 200, [⟨"beans", 18⟩]⟩)]

/-- Product referencing the espresso recipe. -/
def c2prod : Product := ⟨some "recipes/espresso", []⟩

/-- Cart with one 400 ml espresso, needing 36 beans. -/
def c2cart : List SaleItem := [⟨c2prod, 400, 1, [], 15000⟩]

/-- Inventory with just enough beans. -/
def c2inv : QMap := [("beans", 40)]

theorem C2_witness :
    StockNonneg c2state.stock
    ∧ StockNonneg (runOps c2state c2ops).stock
    ∧ StockNonneg c2inv
    ∧ StockNonneg (check_and_commit_sale c2cart c2rs c2inv).1 := by
  have h1 : StockNonneg c2state.stock := by
    intro p hp
    simp [c2state] at hp
    rcases hp with hp | hp <;> simp [hp]
  have h2 : StockNonneg c2inv := by
    intro p hp
    simp [c2inv] at hp
    simp [hp]
  exact ⟨h1, C2_stock_never_negative.1 c2state c2ops h1, h2,
    C2_stock_never_negative.2 c2cart c2rs c2inv h2⟩

/-- Claim C6: when a sale of a product succeeds, immediately undoing the last
sale restores every ingredient quantity to exactly its pre-sale value and
restores the sales collection, provided the recipe quantities are nonnegative
as the data model requires. -/
theorem C6_sell_undo_roundtrip (s : StState) (pid : String) (s1 : StState)
    (hq : ∀ it ∈ getRecipeList s pid, 0 ≤ it.qtyPer)
    (hs : sell_product s pid = (s1, none)) :
    (∀ j, mget ((undo_last_sale s1).1).stock j = mget s.stock j)
    ∧ ((undo_last_sale s1).1).sales = s.sales := by
  by_cases hr : getRecipeList s pid = []
  · rw [sell_product, if_pos hr] at hs
    exact absurd (congrArg Prod.snd hs) (by simp)
  · rw [sell_product, if_neg hr] at hs
    cases hss : sell_steps s.stock (getRecipeList s pid) with
    | mk m1 r =>
      rw [hss] at hs
      cases r with
      | some e =>
        simp only [Prod.mk.injEq] at hs
        simp at hs
      | none =>
        simp only [Prod.mk.injEq] at hs
        obtain ⟨hs1, -⟩ := hs
        obtain ⟨h1, h2, h3⟩ := sell_spec (getRecipeList s pid) s.stock m1 hq hss
        have hcond : ∀ it ∈ getRecipeList s pid, 0 ≤ it.qtyPer
            ∧ mmem m1 it.ingredientId = true ∧ 0 ≤ mget m1 it.ingredientId := by
          intro it hit
          exact ⟨hq it hit, by rw [h2]; exact (h3 it hit).1, (h3 it hit).2⟩
        rw [← hs1]
        simp only [undo_last_sale]
        constructor
        · intro j
          rw [undo_spec (getRecipeList s pid) m1 hcond j, h1 j]
          ring
        · trivial

/-- Starting state for the round-trip witness. -/
def c6state : StState :=
  ⟨[("beans", 100), ("milk", 500)], [("latte", [⟨"beans", 18⟩, ⟨"milk", 150⟩])], []⟩

/-- The state after successfully selling one latte. -/
def c6sold : StState :=
  ⟨[("beans", 82), ("milk", 350)], [("latte", [⟨"beans", 18⟩, ⟨"milk", 150⟩])],
    [⟨"latte", [⟨"beans", 18⟩, ⟨"milk", 150⟩]⟩]⟩

theorem C6_witness :
    (∀ it ∈ getRecipeList c6state "latte", 0 ≤ it.qtyPer)
    ∧ sell_product c6state "latte" = (c6sold, none)
    ∧ ((∀ j, mget ((undo_last_sale c6sold).1).stock j = mget c6state.stock j)
      ∧ ((undo_last_sale c6sold).1).sales = c6state.sales) := by
  have ha : ∀ it ∈ getRecipeList c6state "latte", 0 ≤ it.qtyPer := by
    intro it hit
    simp [getRecipeList, c6state, alookup] at hit
    rcases hit with hit | hit <;> simp [hit]
  have hb : sell_product c6state "latte" = (c6sold, none) := by
    have e1 : adjust_stock [("beans", (100 : ℚ)), ("milk", 500)] "beans" (-(18 : ℚ))
        = ([("beans", 82), ("milk", 500)], none) := by
      rw [adjust_stock, if_neg (by simp [mget]; norm_num), if_pos (by decide)]
      simp [mset, mget]
      norm_num
    have e2 : adjust_stock [("beans", (82 : ℚ)), ("milk", 500)] "milk" (-(150 : ℚ))
        = ([("beans", 82), ("milk", 350)], none) := by
      rw [adjust_stock, if_neg (by simp [mget]; norm_num), if_pos (by decide)]
      simp [mset, mget]
      norm_num
    have hsteps : sell_steps c6state.stock (getRecipeList c6state "latte")
        = ([("beans", 82), ("milk", 350)], none) := by
      show sell_steps [("beans", (100 : ℚ)), ("milk", 500)]
        [⟨"beans", 18⟩, ⟨"milk", 150⟩] = _
      simp [sell_steps, e1, e2]
    rw [sell_product, if_neg (by decide), hsteps]
    simp [c6state, c6sold, getRecipeList, alookup]
  exact ⟨ha, hb, C6_sell_undo_roundtrip c6state "latte" c6sold ha hb⟩

theorem foldl_cart_id (rs : List (String × Recipe)) :
    ∀ (cart : List SaleItem) (acc : QMap),
      (∀ it ∈ cart, consumption_for_item it.product it.volume_ml it.addons rs = []) →
      cart.foldl
        (fun need it =>
          (consumption_for_item it.product it.volume_ml it.addons rs).foldl
            (fun nd kv => mset nd kv.1 (mget nd kv.1 + kv.2 * (it.qty : ℚ)))
            need)
        acc = acc
  | [], _, _ => rfl
  | it :: rest, acc, h => by
    rw [List.foldl_cons, h it (List.mem_cons_self _ _), List.foldl_nil]
    exact foldl_cart_id rs rest acc (fun it2 h2 => h it2 (List.mem_cons_of_mem _ h2))

/-- Claim C7 (amended): resolving a product with no resolvable recipe reference
and no selected add-ons yields the empty consumption map, and the cart pipeline
does not treat this as failure — a nonempty cart made only of such items
commits with the inventory untouched; the standalone sell_product path of
streamlit_app.py, however, rejects a product whose recipe is empty or absent
with an error and no sale. -/
theorem C7_unresolved_recipe_behavior :
    (∀ (p : Product) (v : ℚ) (rs : List (String × Recipe)),
      resolves p rs = false → consumption_for_item p v [] rs = [])
    ∧ (∀ (cart : List SaleItem) (rs : List (String × Recipe)) (inv : QMap),
      (∀ it ∈ cart, resolves it.product rs = false ∧ it.addons = []) → ¬ cart = [] →
      ∃ t, check_and_commit_sale cart rs inv = (inv, SaleResult.ok t))
    ∧ (∀ (s : StState) (pid : String),
      getRecipeList s pid = [] →
      sell_product s pid = (s, some "no recipe for this item")) := by
  refine ⟨?_, ?_, ?_⟩
  · intro p v rs h
    show add_addons p [] (base_total p v rs) = []
    rw [add_addons, List.foldl_nil, base_total_unresolved p v rs h]
  · intro cart rs inv h hne
    have hneed : cart_need cart rs = [] := by
      apply foldl_cart_id rs cart []
      intro it hit
      obtain ⟨h1, h2⟩ := h it hit
      rw [h2]
      show add_addons it.product [] (base_total it.product it.volume_ml rs) = []
      rw [add_addons, List.foldl_nil, base_total_unresolved it.product it.volume_ml rs h1]
    refine ⟨(cart.map price_of_item).sum, ?_⟩
    rw [check_and_commit_sale, if_neg hne, hneed]
    rw [if_pos (show tx_shortages [] inv = [] from rfl)]
    rw [show apply_decrements inv [] = inv from rfl]
  · intro s pid h
    rw [sell_product, if_pos h]

/-- State whose recipes collection is empty, so every product lacks a recipe. -/
def c7state : StState := ⟨[("beans", 1000)], [], []⟩

/-- Claim C7 counterexample: the cited caller sell_product does treat a missing
recipe as a failure of the sale — it returns an error and writes nothing. -/
theorem C7_counterexample :
    (sell_product c7state "latte").2.isSome = true
    ∧ (sell_product c7state "latte").1 = c7state := by
  constructor
  · rw [sell_product, if_pos (by decide)]
    rfl
  · rw [sell_product, if_pos (by decide)]

/-- Product with no recipe reference at all. -/
def c7prod : Product := ⟨none, []⟩

/-- Cart holding one unresolvable item. -/
def c7cart : List SaleItem := [⟨c7prod, 200, 1, [], 500⟩]

/-- Inventory for the C7 witness. -/
def c7inv : QMap := [("beans", 5)]

theorem C7_witness :
    resolves c7prod [] = false
    ∧ consumption_for_item c7prod 300 [] [] = []
    ∧ (∀ it ∈ c7cart, resolves it.product [] = false ∧ it.addons = [])
    ∧ ¬ c7cart = []
    ∧ (∃ t, check_and_commit_sale c7cart [] c7inv = (c7inv, SaleResult.ok t))
    ∧ getRecipeList c7state "latte" = []
    ∧ sell_product c7state "latte" = (c7state, some "no recipe for this item") :=
  ⟨by decide,
   C7_unresolved_recipe_behavior.1 c7prod 300 [] (by decide),
   by decide,
   by decide,
   C7_unresolved_recipe_behavior.2.1 c7cart [] c7inv (by decide) (by decide),
   by decide,
   C7_unresolved_recipe_behavior.2.2 c7state "latte" (by decide)⟩
